import Mathlib

/-!
Shallow embedding of the RISC-V PLIC driver (drivers/irqchip/irq-riscv-plic.c)
and the SMP boot/hotplug coordinator (arch/riscv/kernel/smpboot.c), together
with theorems settling the specification claims about them.

Machine 32-bit MMIO registers are modelled as natural numbers truncated
modulo 2^32 on write; the register window is a map from byte addresses to
register values.  CSR values are modelled as natural numbers viewed as bit
vectors via Nat.testBit.
-/

namespace RiscvCsr

/-- SIE_STIE: supervisor timer-interrupt enable, bit 5 of the sie CSR
(value from the RISC-V privileged architecture, asm/csr.h). -/
def SIE_STIE : Nat := 1 <<< 5

/-- SIE_SEIE: supervisor external-interrupt enable, bit 9 of the sie CSR. -/
def SIE_SEIE : Nat := 1 <<< 9

/-- `csr_clear(csr, mask)` on a 64-bit CSR: clear the bits of `mask`. -/
def csr_clear_op (v mask : Nat) : Nat := v &&& ((2 ^ 64 - 1) ^^^ mask)

/-- `csr_set(csr, mask)`: set the bits of `mask`. -/
def csr_set_op (v mask : Nat) : Nat := v ||| mask

end RiscvCsr

namespace RiscvPlic

/-- MAX_DEVICES from the driver: source ids are 1..1023, 0 reserved. -/
def MAX_DEVICES : Nat := 1024

/-- MAX_CONTEXTS from the driver. -/
def MAX_CONTEXTS : Nat := 15872

def PRIORITY_BASE : Nat := 0

def PRIORITY_PER_ID : Nat := 4

def ENABLE_BASE : Nat := 0x2000

def ENABLE_PER_HART : Nat := 0x80

def CONTEXT_BASE : Nat := 0x200000

def CONTEXT_PER_HART : Nat := 0x1000

def CONTEXT_THRESHOLD : Nat := 0x00

def CONTEXT_CLAIM : Nat := 0x04

/-- The mapped register window: a 32-bit value at each byte address
(only word-aligned addresses are ever used by the driver). -/
structure PlicRegs where
  mem : Nat → Nat

/-- `writel(v, addr)`: store a 32-bit value (truncated to u32). -/
def writel (v addr : Nat) (r : PlicRegs) : PlicRegs :=
  ⟨fun a => if a = addr then v % 2 ^ 32 else r.mem a⟩

/-- `readl(addr)`. -/
def readl (addr : Nat) (r : PlicRegs) : Nat := r.mem addr

/-- `plic_hart_offset(ctxid)` = CONTEXT_BASE + ctxid * CONTEXT_PER_HART
(byte offset of a context's control block inside the window). -/
def plic_hart_offset (ctxid : Nat) : Nat := CONTEXT_BASE + ctxid * CONTEXT_PER_HART

/-- Address of the enable word holding hwirq's bit for a context:
ENABLE_BASE + ctxid * ENABLE_PER_HART + (hwirq / 32) * 4. -/
def plic_enable_addr (ctxid hwirq : Nat) : Nat :=
  ENABLE_BASE + ctxid * ENABLE_PER_HART + (hwirq / 32) * 4

/-- The read-modify-write value computed by `plic_toggle`:
or in (enable) or mask out (disable) `1 << (hwirq % 32)`. -/
def plic_toggle_val (old hwirq : Nat) (enable : Bool) : Nat :=
  if enable then old ||| (1 <<< (hwirq % 32))
  else old &&& ((2 ^ 32 - 1) ^^^ (1 <<< (hwirq % 32)))

/-- `plic_toggle(ctxid, hwirq, enable)`: read-modify-write of the single
enable word selected by (ctxid, hwirq / 32), under the global toggle lock
(the lock acquisition/release is recorded in `plic_toggle_events`). -/
def plic_toggle (ctxid hwirq : Nat) (enable : Bool) (r : PlicRegs) : PlicRegs :=
  writel (plic_toggle_val (readl (plic_enable_addr ctxid hwirq) r) hwirq enable)
    (plic_enable_addr ctxid hwirq) r

/-- Events on the register bus / toggle lock, used to state ordering and
locking properties. -/
inductive MMIOEvent where
  | write (addr val : Nat)
  | lockAcquire
  | lockRelease
deriving DecidableEq, Repr

/-- The event sequence of one `plic_toggle` call: the read-modify-write of
the enable word is bracketed by the global toggle spinlock. -/
def plic_toggle_events (ctxid hwirq : Nat) (enable : Bool) (r : PlicRegs) : List MMIOEvent :=
  [MMIOEvent.lockAcquire,
   MMIOEvent.write (plic_enable_addr ctxid hwirq)
     (plic_toggle_val (readl (plic_enable_addr ctxid hwirq) r) hwirq enable),
   MMIOEvent.lockRelease]

/-- The `for_each_present_cpu` loop of `plic_irq_toggle`: toggle the
source's enable bit in every present cpu's context, in list order. -/
def plic_irq_toggle_loop (present : List Nat) (hwirq : Nat) (enable : Bool)
    (r : PlicRegs) : PlicRegs × List MMIOEvent :=
  match present with
  | [] => (r, [])
  | c :: rest =>
    let r1 := plic_toggle c hwirq enable r
    let res := plic_irq_toggle_loop rest hwirq enable r1
    (res.1, plic_toggle_events c hwirq enable r ++ res.2)

/-- `plic_irq_toggle(d, enable)`: write the source's shared priority
register (1 when enabling, 0 when disabling), then toggle its enable bit
for every present cpu's context. -/
def plic_irq_toggle (present : List Nat) (hwirq : Nat) (enable : Bool)
    (r : PlicRegs) : PlicRegs × List MMIOEvent :=
  let v : Nat := if enable then 1 else 0
  let r1 := writel v (PRIORITY_BASE + hwirq * PRIORITY_PER_ID) r
  let res := plic_irq_toggle_loop present hwirq enable r1
  (res.1, MMIOEvent.write (PRIORITY_BASE + hwirq * PRIORITY_PER_ID) v :: res.2)

/-- The property of one `plic_toggle` event segment: a read-modify-write of
the context's enable word for the source, bracketed by the toggle lock. -/
def lockedToggleSegment (c s : Nat) (seg : List MMIOEvent) : Prop :=
  ∃ v, seg = [MMIOEvent.lockAcquire, MMIOEvent.write (plic_enable_addr c s) v,
    MMIOEvent.lockRelease]

/-- Environment of the claim/complete dispatch loop: the irq-domain lookup
(`irq_find_mapping`, values ≤ 0 mean no virtual mapping) and the effect a
dispatched handler (`generic_handle_irq`) may have on the sie CSR. -/
structure DispatchEnv where
  irq_find_mapping : Nat → Int
  handler_sie : Int → Nat → Nat

/-- Observable actions of one run of the claim dispatcher. -/
inductive HandlerEvent where
  | claimRead (hwirq : Nat)
  | warnUnmapped (hwirq : Nat)
  | ackBad (virq : Int)
  | dispatch (virq : Int)
  | completeWrite (hwirq : Nat)
deriving DecidableEq, Repr

/-- The `while ((hwirq = readl(claim)))` drain loop of `plic_handle_irq`.
`claims` is the sequence of values successive claim-register reads return;
the loop stops at the first 0 (or when the sequence is exhausted, i.e. the
next read would return 0).  Returns the final sie value and the event
trace. -/
def plic_drain_loop (env : DispatchEnv) : List Nat → Nat → Nat × List HandlerEvent
  | [], sie => (sie, [])
  | hwirq :: rest, sie =>
    if hwirq = 0 then (sie, [])
    else
      let virq := env.irq_find_mapping hwirq
      if virq ≤ 0 then
        let res := plic_drain_loop env rest sie
        (res.1, HandlerEvent.claimRead hwirq :: HandlerEvent.warnUnmapped hwirq ::
          HandlerEvent.ackBad virq :: HandlerEvent.completeWrite hwirq :: res.2)
      else
        let sie1 := env.handler_sie virq sie
        let res := plic_drain_loop env rest sie1
        (res.1, HandlerEvent.claimRead hwirq :: HandlerEvent.dispatch virq ::
          HandlerEvent.completeWrite hwirq :: res.2)

/-- `plic_handle_irq`: clear SIE_STIE, drain the claim register, set
SIE_STIE.  Returns the final sie value and the event trace. -/
def plic_handle_irq (env : DispatchEnv) (claims : List Nat) (sie : Nat) :
    Nat × List HandlerEvent :=
  let sie0 := RiscvCsr.csr_clear_op sie RiscvCsr.SIE_STIE
  let res := plic_drain_loop env claims sie0
  (RiscvCsr.csr_set_op res.1 RiscvCsr.SIE_STIE, res.2)

/-- The expected event segment of one drain iteration that claimed the
nonzero source `hwirq`. -/
def drainSegment (env : DispatchEnv) (hwirq : Nat) : List HandlerEvent :=
  if env.irq_find_mapping hwirq ≤ 0 then
    [HandlerEvent.claimRead hwirq, HandlerEvent.warnUnmapped hwirq,
     HandlerEvent.ackBad (env.irq_find_mapping hwirq), HandlerEvent.completeWrite hwirq]
  else
    [HandlerEvent.claimRead hwirq, HandlerEvent.dispatch (env.irq_find_mapping hwirq),
     HandlerEvent.completeWrite hwirq]

/-- Environment of `plic_init`: results of the external calls it makes
(`of_iomap`, the "riscv,ndev" property, `of_irq_count`, the irq-domain
allocation). -/
structure PlicEnv where
  mapSuccess : Bool
  initialRegs : PlicRegs
  nr_irqs : Nat
  nr_handlers : Nat
  domainAllocSuccess : Bool

/-- Driver state: the mapped window (`plic_regs`, none = not mapped), the
size of the allocated irq-domain, and whether `set_handle_irq` ran. -/
structure PlicState where
  plic_regs : Option PlicRegs
  domain_size : Option Nat
  handler_installed : Bool

/-- Which of plic_init's sequential checks fired (ok = returned 0). -/
inductive PlicInitResult where
  | ok
  | errAlreadyPresent
  | errMapFailed
  | errNoIrqs
  | errNoHandlers
  | errTooFewHandlers
  | errDomainAlloc
deriving DecidableEq, Repr

/-- The errno each result corresponds to in the source
(-ENXIO, -EIO, -EINVAL, -ENOMEM). -/
def plic_init_errno : PlicInitResult → Int
  | PlicInitResult.ok => 0
  | PlicInitResult.errAlreadyPresent => -6
  | PlicInitResult.errMapFailed => -5
  | PlicInitResult.errNoIrqs => -22
  | PlicInitResult.errNoHandlers => -22
  | PlicInitResult.errTooFewHandlers => -22
  | PlicInitResult.errDomainAlloc => -12

/-- The spec's `InsufficientContexts` failure: the EINVAL exits taken when
the number of hart-facing contexts (`of_irq_count`) is zero or below the
cpu count. -/
def failsInsufficientContexts (res : PlicInitResult) : Prop :=
  res = PlicInitResult.errNoHandlers ∨ res = PlicInitResult.errTooFewHandlers

/-- `bitsLe r2 r`: every bit set in `r2` is set in `r` (the step from `r`
to `r2` only cleared bits — which is all the initialization loop ever
does, since it only writes zeros and clears enable bits). -/
def bitsLe (r2 r : PlicRegs) : Prop :=
  ∀ a i, (r2.mem a).testBit i = true → (r.mem a).testBit i = true

/-- One iteration of plic_init's `for_each_present_cpu` body: zero the
context's threshold, then clear every source's enable bit (sources
1..nr_irqs). -/
def plic_init_ctx (nr_irqs c : Nat) (r : PlicRegs) : PlicRegs :=
  (List.range' 1 nr_irqs).foldl (fun acc s => plic_toggle c s false acc)
    (writel 0 (plic_hart_offset c + CONTEXT_THRESHOLD) r)

/-- plic_init's `for_each_present_cpu` loop. -/
def plic_init_contexts (nr_irqs : Nat) (present : List Nat) (r : PlicRegs) : PlicRegs :=
  present.foldl (fun acc c => plic_init_ctx nr_irqs c acc) r

/-- `plic_init(node, parent)`: the sequential checks and initialization of
the driver.  `possible` and `present` are the system cpu masks
(`num_possible_cpus()` is `possible.length`; `for_each_present_cpu` walks
`present`). -/
def plic_init (env : PlicEnv) (possible present : List Nat) (st : PlicState) :
    PlicInitResult × PlicState :=
  if st.plic_regs.isSome then (PlicInitResult.errAlreadyPresent, st)
  else if ¬ env.mapSuccess then (PlicInitResult.errMapFailed, st)
  else if env.nr_irqs = 0 then
    (PlicInitResult.errNoIrqs, { st with plic_regs := none })
  else if env.nr_handlers = 0 then
    (PlicInitResult.errNoHandlers, { st with plic_regs := none })
  else if env.nr_handlers < possible.length then
    (PlicInitResult.errTooFewHandlers, { st with plic_regs := none })
  else if ¬ env.domainAllocSuccess then
    (PlicInitResult.errDomainAlloc, { st with plic_regs := none })
  else
    (PlicInitResult.ok,
      { plic_regs := some (plic_init_contexts env.nr_irqs present env.initialRegs),
        domain_size := some (env.nr_irqs + 1),
        handler_installed := true })

end RiscvPlic

namespace RiscvSmp

/-- THREAD_SIZE (arch constant; its exact value is irrelevant here). -/
def THREAD_SIZE : Nat := 8192

/-- -EOPNOTSUPP. -/
def EOPNOTSUPP : Int := 95

/-- The fields of `struct task_struct` the boot path touches:
`task_stack_page(tidle)` and `tidle->thread_info.cpu`. -/
structure TaskStruct where
  stack_page : Nat
  cpu : Nat
deriving DecidableEq, Repr

/-- The shared state the boot coordinator reads and writes:
`cpu_logical_map`, the `__cpu_up_stack_pointer` / `__cpu_up_task_pointer`
arrays (none = NULL), and the online mask. -/
structure SmpState where
  logical_map : Nat → Nat
  cpu_up_stack_pointer : Nat → Option Nat
  cpu_up_task_pointer : Nat → Option TaskStruct
  online : Nat → Bool

/-- Observable actions of `__cpu_up`. -/
inductive BootEvent where
  | bootPrimitive (hartid : Nat)
  | sendIPI (cpu : Nat)
  | logBootFailure (cpu hartid : Nat)
  | logOnline (cpu : Nat)
deriving DecidableEq, Repr

/-- The `cpu_operations` hooks used by the modelled paths.  The boot hook
may fail and update state; the disable hook returns an errno;
`cpu_die_present` is what `default_cpu_disable` checks. -/
structure CpuOperations where
  cpu_boot : Option (Nat → TaskStruct → SmpState → Int × SmpState)
  cpu_disable : Option (Nat → Int)
  cpu_die_present : Bool

/-- `default_cpu_boot(hartid, tidle)`: publish the boot stack pointer and
task pointer for the target hart; always returns 0. -/
def default_cpu_boot (hartid : Nat) (tidle : TaskStruct) (st : SmpState) :
    Int × SmpState :=
  (0, { st with
    cpu_up_stack_pointer := fun h =>
      if h = hartid then some (tidle.stack_page + THREAD_SIZE)
      else st.cpu_up_stack_pointer h,
    cpu_up_task_pointer := fun h =>
      if h = hartid then some tidle else st.cpu_up_task_pointer h })

/-- `default_cpu_disable(cpu)`: succeeds iff a cpu_die hook is installed,
else -EOPNOTSUPP. -/
def default_cpu_disable (die_present : Bool) (_cpu : Nat) : Int :=
  if die_present then 0 else -EOPNOTSUPP

/-- The `default_ops` structure installed by `setup_smp`. -/
def default_ops : CpuOperations :=
  { cpu_boot := some default_cpu_boot,
    cpu_disable := some (default_cpu_disable true),
    cpu_die_present := true }

/-- `__cpu_up(cpu, tidle)`.  `comesOnline` is the oracle for whether the
target hart eventually sets its online flag (the busy-poll has no
timeout); `none` means the poll never terminates.  Note that the source
returns 0 in every terminating case, including when the boot primitive
reported an error (it only logs the failure). -/
def cpu_up (ops : CpuOperations) (comesOnline : Bool) (cpu : Nat)
    (tidle : TaskStruct) (st : SmpState) : Option (Int × SmpState × List BootEvent) :=
  let hartid := st.logical_map cpu
  let tidle1 := { tidle with cpu := cpu }
  match ops.cpu_boot with
  | some boot =>
    let res := boot hartid tidle1 st
    if res.1 = 0 then
      if res.2.online cpu || comesOnline then
        some (0, res.2,
          [BootEvent.bootPrimitive hartid, BootEvent.sendIPI cpu, BootEvent.logOnline cpu])
      else none
    else
      some (0, res.2, [BootEvent.bootPrimitive hartid, BootEvent.logBootFailure cpu hartid])
  | none =>
    some (0, st, [BootEvent.logBootFailure cpu hartid])

/-- Observable actions of `__cpu_disable`. -/
inductive DisableEvent where
  | migrateIrqs (cpu : Nat)
deriving DecidableEq, Repr

/-- The `ret` computed by `__cpu_disable`: the installed disable hook's
return value, or 0 (initial value) when the hook is absent. -/
def cpu_disable_ret (dis : Option (Nat → Int)) (cpu : Nat) : Int :=
  match dis with
  | some f => f cpu
  | none => 0

/-- `__cpu_disable()`, running on cpu: call the installed disable hook if
any (absent hook means ret stays 0); on failure return the error with no
further effect; on success clear the online flag and migrate irqs away. -/
def cpu_disable_path (dis : Option (Nat → Int)) (cpu : Nat) (st : SmpState) :
    Int × SmpState × List DisableEvent :=
  if cpu_disable_ret dis cpu ≠ 0 then (cpu_disable_ret dis cpu, st, [])
  else (0, { st with online := fun c => if c = cpu then false else st.online c },
    [DisableEvent.migrateIrqs cpu])

/-- A small concrete system state for evaluating the boot and hotplug
paths: cpu c is hart c + 10; hart 11's boot stack slot holds 999; cpu 1 is
online. -/
def onlineTestState : SmpState :=
  { logical_map := fun c => c + 10,
    cpu_up_stack_pointer := fun h => if h = 11 then some 999 else none,
    cpu_up_task_pointer := fun _ => none,
    online := fun c => c == 1 }

/-- INTERRUPT_CAUSE_SOFTWARE (asm/irq.h): the scause value of a supervisor
software interrupt. -/
def INTERRUPT_CAUSE_SOFTWARE : Nat := 1

/-- One round of CSR values read after `wait_for_interrupt()` in
`default_cpu_die`. -/
structure CsrObservation where
  sip : Nat
  sie : Nat
  scause : Nat
deriving DecidableEq, Repr

/-- The do-while continuation condition of `default_cpu_die`'s park loop:
keep waiting while no enabled interrupt is pending and scause is not the
software cause. -/
def die_loop_continue (o : CsrObservation) : Bool :=
  (o.sip &&& o.sie == 0) && (o.scause != INTERRUPT_CAUSE_SOFTWARE)

/-- `default_cpu_die(cpu)`'s park loop over a stream of CSR observations:
returns the index of the observation on which the loop exits (after which
the hart re-enters `secondaryEntry` via `boot_sec_cpu()`), or none if
every observation keeps it parked. -/
def default_cpu_die_run : List CsrObservation → Option Nat
  | [] => none
  | o :: rest =>
    if die_loop_continue o then (default_cpu_die_run rest).map Nat.succ
    else some 0

/-- The sie mask applied by `cpu_play_dead` before parking: clear the
timer and external enables, deliberately keeping the software-interrupt
enable. -/
def cpu_play_dead_sie (sie : Nat) : Nat :=
  RiscvCsr.csr_clear_op sie (RiscvCsr.SIE_STIE ||| RiscvCsr.SIE_SEIE)

/-- The cpu masks and logical map assembled by `setup_smp`. -/
structure SmpMasks where
  logical_map : Nat → Nat
  possible : List Nat
  present : List Nat

/-- The device-tree walk of `setup_smp`: `harts` lists
`riscv_of_processor_hart` for each cpu node (negative = invalid node);
`boot` is `cpu_logical_map(0)`.  Skips invalid nodes, records the boot
hart exactly once (BUG_ON otherwise, modelled as none), and assigns dense
logical ids starting at 1 to the others, marking each possible and
present. -/
def setup_smp_go (boot : Int) : List Int → Nat → Bool → SmpMasks → Option SmpMasks
  | [], _, found, st => if found then some st else none
  | hart :: rest, cpuid, found, st =>
    if hart < 0 then setup_smp_go boot rest cpuid found st
    else if hart = boot then
      if found then none else setup_smp_go boot rest cpuid true st
    else
      setup_smp_go boot rest (cpuid + 1) found
        { logical_map := fun i => if i = cpuid then hart.toNat else st.logical_map i,
          possible := st.possible ++ [cpuid],
          present := st.present ++ [cpuid] }

/-- `setup_smp()`.  The boot cpu (logical id 0) is already marked possible
and present by generic kernel startup, so the masks start as [0]. -/
def setup_smp (boot : Int) (harts : List Int) : Option SmpMasks :=
  setup_smp_go boot harts 1 false
    { logical_map := fun i => if i = 0 then boot.toNat else 0,
      possible := [0], present := [0] }

end RiscvSmp

open RiscvCsr RiscvPlic RiscvSmp

theorem mem_writel (v addr a : Nat) (r : PlicRegs) :
    (writel v addr r).mem a = if a = addr then v % 2 ^ 32 else r.mem a := rfl

theorem testBit_toggle_val_self (old s : Nat) (e : Bool) :
    (plic_toggle_val old s e % 2 ^ 32).testBit (s % 32) = e := by
  have hlt : s % 32 < 32 := Nat.mod_lt _ (by omega)
  cases e
  · have hval : plic_toggle_val old s false
        = old &&& ((2 ^ 32 - 1) ^^^ (1 <<< (s % 32))) := rfl
    rw [hval, Nat.testBit_mod_two_pow, Nat.testBit_and, Nat.testBit_xor,
      Nat.testBit_two_pow_sub_one, Nat.shiftLeft_eq, one_mul, Nat.testBit_two_pow]
    simp [hlt]
  · have hval : plic_toggle_val old s true = old ||| (1 <<< (s % 32)) := rfl
    rw [hval, Nat.testBit_mod_two_pow, Nat.testBit_or, Nat.shiftLeft_eq, one_mul,
      Nat.testBit_two_pow]
    simp [hlt]

theorem testBit_toggle_val_other (old s b : Nat) (e : Bool) (hb : b < 32) (hne : b ≠ s % 32) :
    (plic_toggle_val old s e % 2 ^ 32).testBit b = old.testBit b := by
  have hne2 : ¬ (s % 32 = b) := fun h => hne h.symm
  cases e
  · have hval : plic_toggle_val old s false
        = old &&& ((2 ^ 32 - 1) ^^^ (1 <<< (s % 32))) := rfl
    rw [hval, Nat.testBit_mod_two_pow, Nat.testBit_and, Nat.testBit_xor,
      Nat.testBit_two_pow_sub_one, Nat.shiftLeft_eq, one_mul, Nat.testBit_two_pow]
    simp [hb, hne2]
  · have hval : plic_toggle_val old s true = old ||| (1 <<< (s % 32)) := rfl
    rw [hval, Nat.testBit_mod_two_pow, Nat.testBit_or, Nat.shiftLeft_eq, one_mul,
      Nat.testBit_two_pow]
    simp [hb, hne2]

theorem plic_enable_addr_inj {c c2 w w2 : Nat} (hw : w < 32) (hw2 : w2 < 32)
    (h : ENABLE_BASE + c * ENABLE_PER_HART + w * 4 = ENABLE_BASE + c2 * ENABLE_PER_HART + w2 * 4) :
    c = c2 ∧ w = w2 := by
  simp only [ENABLE_BASE, ENABLE_PER_HART] at h
  omega

theorem plic_toggle_mem_other (c s : Nat) (e : Bool) (r : PlicRegs) (a : Nat)
    (ha : a ≠ plic_enable_addr c s) : (plic_toggle c s e r).mem a = r.mem a := by
  simp [plic_toggle, mem_writel, ha]

theorem plic_toggle_mem_self (c s : Nat) (e : Bool) (r : PlicRegs) :
    (plic_toggle c s e r).mem (plic_enable_addr c s)
      = plic_toggle_val (r.mem (plic_enable_addr c s)) s e % 2 ^ 32 := by
  simp [plic_toggle, mem_writel, readl]

theorem plic_irq_toggle_loop_events (s : Nat) (e : Bool) :
    ∀ (present : List Nat) (r : PlicRegs),
      ∃ segs : List (List MMIOEvent),
        (plic_irq_toggle_loop present s e r).2 = segs.flatten ∧
        List.Forall₂ (fun c seg => lockedToggleSegment c s seg) present segs := by
  intro present
  induction present with
  | nil => exact fun r => ⟨[], rfl, List.Forall₂.nil⟩
  | cons c rest ih =>
    intro r
    obtain ⟨segs, hjoin, hall⟩ := ih (plic_toggle c s e r)
    refine ⟨plic_toggle_events c s e r :: segs, ?_, ?_⟩
    · simp [plic_irq_toggle_loop, hjoin]
    · exact List.Forall₂.cons ⟨_, rfl⟩ hall

theorem plic_irq_toggle_loop_mem_other (s : Nat) (e : Bool) :
    ∀ (present : List Nat) (r : PlicRegs) (a : Nat),
      (∀ c ∈ present, a ≠ plic_enable_addr c s) →
      (plic_irq_toggle_loop present s e r).1.mem a = r.mem a := by
  intro present
  induction present with
  | nil => intro r a _; rfl
  | cons c rest ih =>
    intro r a ha
    have h1 : (plic_irq_toggle_loop (c :: rest) s e r).1
        = (plic_irq_toggle_loop rest s e (plic_toggle c s e r)).1 := rfl
    rw [h1, ih _ a (fun c2 hc2 => ha c2 (List.mem_cons_of_mem _ hc2)),
      plic_toggle_mem_other c s e r a (ha c (List.mem_cons_self _ _))]

theorem plic_enable_addr_inj_ctx {c c2 s : Nat} (h : plic_enable_addr c s = plic_enable_addr c2 s) :
    c = c2 := by
  simp only [plic_enable_addr, ENABLE_BASE, ENABLE_PER_HART] at h
  omega

theorem plic_irq_toggle_loop_sets_bit (s : Nat) (e : Bool) :
    ∀ (present : List Nat) (r : PlicRegs) (c : Nat), c ∈ present →
      ((plic_irq_toggle_loop present s e r).1.mem (plic_enable_addr c s)).testBit (s % 32) = e := by
  intro present
  induction present with
  | nil => intro r c hc; cases hc
  | cons c0 rest ih =>
    intro r c hc
    have h1 : (plic_irq_toggle_loop (c0 :: rest) s e r).1
        = (plic_irq_toggle_loop rest s e (plic_toggle c0 s e r)).1 := rfl
    rw [h1]
    by_cases hmem : c ∈ rest
    · exact ih _ c hmem
    · have hc0 : c = c0 := by
        rcases List.mem_cons.mp hc with h | h
        · exact h
        · exact absurd h hmem
      subst hc0
      rw [plic_irq_toggle_loop_mem_other s e rest _ _
        (fun c2 hc2 heq => hmem (by rw [plic_enable_addr_inj_ctx heq]; exact hc2)),
        plic_toggle_mem_self]
      exact testBit_toggle_val_self _ s e

theorem plic_enable_addr_eq (c s : Nat) :
    plic_enable_addr c s = 0x2000 + 0x80 * c + 4 * (s / 32) := by
  simp only [plic_enable_addr, ENABLE_BASE, ENABLE_PER_HART]
  ring

/-- C10: a single enable-bit toggle changes only bit `s % 32` of the one
32-bit enable word addressed by (c, s / 32) — leaving it equal to the
enable flag — while every other bit of that word, every other register
address, and in particular every other enable word (of this context or of
any other context) keep their values. -/
theorem plic_toggle_frame (c s : Nat) (e : Bool) (r : PlicRegs) (hs : s < MAX_DEVICES) :
    ((plic_toggle c s e r).mem (plic_enable_addr c s)).testBit (s % 32) = e
    ∧ (∀ b, b < 32 → b ≠ s % 32 →
        ((plic_toggle c s e r).mem (plic_enable_addr c s)).testBit b
          = (r.mem (plic_enable_addr c s)).testBit b)
    ∧ (∀ a, a ≠ plic_enable_addr c s → (plic_toggle c s e r).mem a = r.mem a)
    ∧ (∀ c2 w2, w2 < 32 → ¬ (c2 = c ∧ w2 = s / 32) →
        (plic_toggle c s e r).mem (ENABLE_BASE + c2 * ENABLE_PER_HART + w2 * 4)
          = r.mem (ENABLE_BASE + c2 * ENABLE_PER_HART + w2 * 4)) := by
  refine ⟨?_, ?_, ?_, ?_⟩
  · rw [plic_toggle_mem_self]
    exact testBit_toggle_val_self _ s e
  · intro b hb hne
    rw [plic_toggle_mem_self]
    exact testBit_toggle_val_other _ s b e hb hne
  · exact plic_toggle_mem_other c s e r
  · intro c2 w2 hw2 hne
    apply plic_toggle_mem_other
    intro heq
    have hdiv : s / 32 < 32 := by
      simp only [MAX_DEVICES] at hs
      omega
    simp only [plic_enable_addr] at heq
    obtain ⟨hc, hw⟩ := plic_enable_addr_inj hw2 hdiv heq
    exact hne ⟨hc, hw⟩

theorem plic_toggle_frame_witness :
    3 < MAX_DEVICES
    ∧ (((plic_toggle 0 3 true ⟨fun _ => 0⟩).mem (plic_enable_addr 0 3)).testBit (3 % 32) = true
    ∧ (∀ b, b < 32 → b ≠ 3 % 32 →
        ((plic_toggle 0 3 true ⟨fun _ => 0⟩).mem (plic_enable_addr 0 3)).testBit b
          = ((⟨fun _ => 0⟩ : PlicRegs).mem (plic_enable_addr 0 3)).testBit b)
    ∧ (∀ a, a ≠ plic_enable_addr 0 3 →
        (plic_toggle 0 3 true ⟨fun _ => 0⟩).mem a = (⟨fun _ => 0⟩ : PlicRegs).mem a)
    ∧ (∀ c2 w2, w2 < 32 → ¬ (c2 = 0 ∧ w2 = 3 / 32) →
        (plic_toggle 0 3 true ⟨fun _ => 0⟩).mem (ENABLE_BASE + c2 * ENABLE_PER_HART + w2 * 4)
          = (⟨fun _ => 0⟩ : PlicRegs).mem (ENABLE_BASE + c2 * ENABLE_PER_HART + w2 * 4))) :=
  ⟨by decide, plic_toggle_frame 0 3 true ⟨fun _ => 0⟩ (by decide)⟩

/-- C6: `setEnabled(s, e)` (plic_irq_toggle) first writes 1 (enable) or 0
(disable) to the source's single shared priority register at byte offset
4*s, and then for every present core's context c performs a
read-modify-write of the 32-bit enable word at 0x2000 + 0x80*c + 4*(s/32)
while holding the global toggle lock, leaving bit s % 32 of that word
equal to the flag. -/
theorem plic_irq_toggle_spec (present : List Nat) (s : Nat) (e : Bool) (r : PlicRegs) :
    ∃ segs : List (List MMIOEvent),
      (plic_irq_toggle present s e r).2
        = MMIOEvent.write (PRIORITY_BASE + s * PRIORITY_PER_ID) (if e then 1 else 0)
            :: segs.flatten
      ∧ List.Forall₂ (fun c seg => lockedToggleSegment c s seg) present segs
      ∧ ∀ c ∈ present,
          ((plic_irq_toggle present s e r).1.mem (plic_enable_addr c s)).testBit (s % 32) = e := by
  obtain ⟨segs, hj, hall⟩ := plic_irq_toggle_loop_events s e present
    (writel (if e then 1 else 0) (PRIORITY_BASE + s * PRIORITY_PER_ID) r)
  refine ⟨segs, ?_, hall, ?_⟩
  · show MMIOEvent.write (PRIORITY_BASE + s * PRIORITY_PER_ID) (if e then 1 else 0)
        :: (plic_irq_toggle_loop present s e
          (writel (if e then 1 else 0) (PRIORITY_BASE + s * PRIORITY_PER_ID) r)).2
      = _
    rw [hj]
  · intro c hc
    exact plic_irq_toggle_loop_sets_bit s e present _ c hc

/-- C9: every run of the claim dispatcher ends by setting SIE_STIE
unconditionally: whatever the bit's value on entry and whatever the
dispatched handlers did to sie, the timer-interrupt enable bit is set on
exit (the prior value is not restored). -/
theorem plic_handle_irq_sets_stie (env : DispatchEnv) (claims : List Nat) (sie : Nat) :
    ((plic_handle_irq env claims sie).1).testBit 5 = true := by
  show (RiscvCsr.csr_set_op
    (plic_drain_loop env claims (RiscvCsr.csr_clear_op sie RiscvCsr.SIE_STIE)).1
    RiscvCsr.SIE_STIE).testBit 5 = true
  rw [RiscvCsr.csr_set_op, Nat.testBit_or]
  have h32 : (RiscvCsr.SIE_STIE).testBit 5 = true := by decide
  rw [h32, Bool.or_true]

theorem plic_drain_loop_segments (env : DispatchEnv) :
    ∀ (claims : List Nat) (sie : Nat), (∀ q ∈ claims, q ≠ 0) →
      ∃ segs : List (List HandlerEvent),
        (plic_drain_loop env claims sie).2 = segs.flatten
        ∧ List.Forall₂ (fun q seg => seg = drainSegment env q) claims segs := by
  intro claims
  induction claims with
  | nil => exact fun sie _ => ⟨[], rfl, List.Forall₂.nil⟩
  | cons q rest ih =>
    intro sie h
    have hq : q ≠ 0 := h q (List.mem_cons_self _ _)
    have hrest : ∀ x ∈ rest, x ≠ 0 := fun x hx => h x (List.mem_cons_of_mem _ hx)
    by_cases hm : env.irq_find_mapping q ≤ 0
    · obtain ⟨segs, hflat, hall⟩ := ih sie hrest
      refine ⟨drainSegment env q :: segs, ?_, List.Forall₂.cons rfl hall⟩
      simp [plic_drain_loop, hq, hm, drainSegment, hflat]
    · obtain ⟨segs, hflat, hall⟩ := ih (env.handler_sie (env.irq_find_mapping q) sie) hrest
      refine ⟨drainSegment env q :: segs, ?_, List.Forall₂.cons rfl hall⟩
      simp [plic_drain_loop, hq, hm, drainSegment, hflat]

theorem drainSegment_props (env : DispatchEnv) (q : Nat) :
    (drainSegment env q).count (HandlerEvent.completeWrite q) = 1
    ∧ (env.irq_find_mapping q ≤ 0 →
        HandlerEvent.warnUnmapped q ∈ drainSegment env q
        ∧ (∀ v, HandlerEvent.dispatch v ∉ drainSegment env q)
        ∧ drainSegment env q
            = [HandlerEvent.claimRead q, HandlerEvent.warnUnmapped q,
               HandlerEvent.ackBad (env.irq_find_mapping q), HandlerEvent.completeWrite q])
    ∧ (0 < env.irq_find_mapping q →
        (drainSegment env q).count (HandlerEvent.dispatch (env.irq_find_mapping q)) = 1
        ∧ drainSegment env q
            = [HandlerEvent.claimRead q,
               HandlerEvent.dispatch (env.irq_find_mapping q),
               HandlerEvent.completeWrite q]) := by
  by_cases hm : env.irq_find_mapping q ≤ 0
  · refine ⟨?_, fun _ => ⟨?_, ?_, ?_⟩, fun hpos => absurd hpos (by omega)⟩
    · simp [drainSegment, hm, List.count_cons]
    · simp [drainSegment, hm]
    · intro v
      simp [drainSegment, hm]
    · simp [drainSegment, hm]
  · refine ⟨?_, fun hle => absurd hle hm, fun _ => ⟨?_, ?_⟩⟩
    · simp [drainSegment, hm, List.count_cons]
    · simp [drainSegment, hm, List.count_cons]
    · simp [drainSegment, hm]

/-- C5: with every claim-register read in the drain loop returning a
nonzero source id, the dispatcher's trace splits into one segment per
claimed id; in each segment exactly one completion write of that id
occurs; an unmapped id produces a rate-limited warning and is written
back without any dispatch; a mapped id is dispatched exactly once and the
id is written back after the handler returns.  No id aborts the loop. -/
theorem plic_handle_irq_segments (env : DispatchEnv) (claims : List Nat) (sie : Nat)
    (h : ∀ q ∈ claims, q ≠ 0) :
    ∃ segs : List (List HandlerEvent),
      (plic_handle_irq env claims sie).2 = segs.flatten
      ∧ List.Forall₂ (fun q seg =>
          seg.count (HandlerEvent.completeWrite q) = 1
          ∧ (env.irq_find_mapping q ≤ 0 →
              HandlerEvent.warnUnmapped q ∈ seg
              ∧ (∀ v, HandlerEvent.dispatch v ∉ seg)
              ∧ seg = [HandlerEvent.claimRead q, HandlerEvent.warnUnmapped q,
                  HandlerEvent.ackBad (env.irq_find_mapping q),
                  HandlerEvent.completeWrite q])
          ∧ (0 < env.irq_find_mapping q →
              seg.count (HandlerEvent.dispatch (env.irq_find_mapping q)) = 1
              ∧ seg = [HandlerEvent.claimRead q,
                  HandlerEvent.dispatch (env.irq_find_mapping q),
                  HandlerEvent.completeWrite q]))
        claims segs := by
  obtain ⟨segs, hflat, hall⟩ := plic_drain_loop_segments env claims
    (RiscvCsr.csr_clear_op sie RiscvCsr.SIE_STIE) h
  refine ⟨segs, hflat, ?_⟩
  refine List.Forall₂.imp ?_ hall
  intro q seg hseg
  subst hseg
  exact drainSegment_props env q

theorem plic_handle_irq_segments_witness :
    (∀ q ∈ [3, 5], q ≠ 0)
    ∧ ∃ segs : List (List HandlerEvent),
      (plic_handle_irq
        ⟨fun q => if q = 5 then 7 else 0, fun _ sie => sie⟩ [3, 5] 0).2 = segs.flatten
      ∧ List.Forall₂ (fun q seg =>
          seg.count (HandlerEvent.completeWrite q) = 1
          ∧ ((DispatchEnv.mk (fun q => if q = 5 then 7 else 0)
                (fun _ sie => sie)).irq_find_mapping q ≤ 0 →
              HandlerEvent.warnUnmapped q ∈ seg
              ∧ (∀ v, HandlerEvent.dispatch v ∉ seg)
              ∧ seg = [HandlerEvent.claimRead q, HandlerEvent.warnUnmapped q,
                  HandlerEvent.ackBad ((DispatchEnv.mk (fun q => if q = 5 then 7 else 0)
                    (fun _ sie => sie)).irq_find_mapping q),
                  HandlerEvent.completeWrite q])
          ∧ (0 < (DispatchEnv.mk (fun q => if q = 5 then 7 else 0)
                (fun _ sie => sie)).irq_find_mapping q →
              seg.count (HandlerEvent.dispatch
                ((DispatchEnv.mk (fun q => if q = 5 then 7 else 0)
                  (fun _ sie => sie)).irq_find_mapping q)) = 1
              ∧ seg = [HandlerEvent.claimRead q,
                  HandlerEvent.dispatch ((DispatchEnv.mk (fun q => if q = 5 then 7 else 0)
                    (fun _ sie => sie)).irq_find_mapping q),
                  HandlerEvent.completeWrite q]))
        [3, 5] segs :=
  ⟨by decide, plic_handle_irq_segments
    ⟨fun q => if q = 5 then 7 else 0, fun _ sie => sie⟩ [3, 5] 0 (by decide)⟩

theorem bitsLe_rfl (r : PlicRegs) : bitsLe r r := fun _ _ h => h

theorem bitsLe_trans {r3 r2 r : PlicRegs} (h12 : bitsLe r2 r) (h23 : bitsLe r3 r2) :
    bitsLe r3 r := fun a i h => h12 a i (h23 a i h)

theorem bitsLe_writel_zero (addr : Nat) (r : PlicRegs) : bitsLe (writel 0 addr r) r := by
  intro a i h
  rw [mem_writel] at h
  by_cases ha : a = addr
  · rw [if_pos ha] at h
    simp at h
  · rwa [if_neg ha] at h

theorem bitsLe_toggle_off (c s : Nat) (r : PlicRegs) : bitsLe (plic_toggle c s false r) r := by
  intro a i h
  by_cases ha : a = plic_enable_addr c s
  · subst ha
    rw [plic_toggle_mem_self] at h
    have hval : plic_toggle_val (r.mem (plic_enable_addr c s)) s false
        = r.mem (plic_enable_addr c s) &&& ((2 ^ 32 - 1) ^^^ (1 <<< (s % 32))) := rfl
    rw [hval, Nat.testBit_mod_two_pow, Bool.and_eq_true, Nat.testBit_and,
      Bool.and_eq_true] at h
    exact h.2.1
  · rwa [plic_toggle_mem_other c s false r a ha] at h

theorem bitsLe_foldl_toggle_off (c : Nat) : ∀ (L : List Nat) (r : PlicRegs),
    bitsLe (L.foldl (fun acc x => plic_toggle c x false acc) r) r := by
  intro L
  induction L with
  | nil => exact fun r => bitsLe_rfl r
  | cons x rest ih =>
    intro r
    have hfold : (x :: rest).foldl (fun acc y => plic_toggle c y false acc) r
        = rest.foldl (fun acc y => plic_toggle c y false acc) (plic_toggle c x false r) := rfl
    rw [hfold]
    exact bitsLe_trans (bitsLe_toggle_off c x r) (ih _)

theorem bitsLe_init_ctx (n c : Nat) (r : PlicRegs) : bitsLe (plic_init_ctx n c r) r :=
  bitsLe_trans (bitsLe_writel_zero _ r) (bitsLe_foldl_toggle_off c _ _)

theorem bitsLe_init_contexts (n : Nat) : ∀ (present : List Nat) (r : PlicRegs),
    bitsLe (plic_init_contexts n present r) r := by
  intro present
  induction present with
  | nil => exact fun r => bitsLe_rfl r
  | cons c rest ih =>
    intro r
    have hfold : plic_init_contexts n (c :: rest) r
        = plic_init_contexts n rest (plic_init_ctx n c r) := rfl
    rw [hfold]
    exact bitsLe_trans (bitsLe_init_ctx n c r) (ih _)

theorem testBit_false_of_bitsLe {r2 r : PlicRegs} {a i : Nat} (h : bitsLe r2 r)
    (hf : (r.mem a).testBit i = false) : (r2.mem a).testBit i = false := by
  cases h2 : (r2.mem a).testBit i
  · rfl
  · have := h a i h2
    simp [this] at hf

theorem mem_zero_of_bitsLe {r2 r : PlicRegs} {a : Nat} (h : bitsLe r2 r)
    (h0 : r.mem a = 0) : r2.mem a = 0 := by
  apply Nat.eq_of_testBit_eq
  intro i
  rw [Nat.zero_testBit]
  exact testBit_false_of_bitsLe h (by rw [h0, Nat.zero_testBit])

theorem init_ctx_threshold (n c : Nat) (r : PlicRegs) :
    (plic_init_ctx n c r).mem (plic_hart_offset c + CONTEXT_THRESHOLD) = 0 := by
  have hfold : plic_init_ctx n c r
      = (List.range' 1 n).foldl (fun acc s => plic_toggle c s false acc)
          (writel 0 (plic_hart_offset c + CONTEXT_THRESHOLD) r) := rfl
  rw [hfold]
  apply mem_zero_of_bitsLe (bitsLe_foldl_toggle_off c _ _)
  rw [mem_writel, if_pos rfl]
  exact Nat.zero_mod _

theorem foldl_toggle_off_clears (c : Nat) : ∀ (L : List Nat) (r : PlicRegs) (s : Nat), s ∈ L →
    ((L.foldl (fun acc x => plic_toggle c x false acc) r).mem
      (plic_enable_addr c s)).testBit (s % 32) = false := by
  intro L
  induction L with
  | nil => intro r s hs; cases hs
  | cons x rest ih =>
    intro r s hs
    have hfold : ((x :: rest).foldl (fun acc y => plic_toggle c y false acc) r)
        = rest.foldl (fun acc y => plic_toggle c y false acc) (plic_toggle c x false r) := rfl
    rw [hfold]
    by_cases hmem : s ∈ rest
    · exact ih _ s hmem
    · have hsx : s = x := by
        rcases List.mem_cons.mp hs with h | h
        · exact h
        · exact absurd h hmem
      subst hsx
      apply testBit_false_of_bitsLe (bitsLe_foldl_toggle_off c rest _)
      rw [plic_toggle_mem_self]
      exact testBit_toggle_val_self _ s false

theorem init_ctx_clears (n c : Nat) (r : PlicRegs) (s : Nat) (h1 : 1 ≤ s) (h2 : s ≤ n) :
    ((plic_init_ctx n c r).mem (plic_enable_addr c s)).testBit (s % 32) = false := by
  apply foldl_toggle_off_clears c (List.range' 1 n) _ s
  exact List.mem_range'_1.mpr ⟨h1, by omega⟩

theorem init_contexts_props (n : Nat) : ∀ (present : List Nat) (r : PlicRegs) (c : Nat),
    c ∈ present →
    (plic_init_contexts n present r).mem (plic_hart_offset c + CONTEXT_THRESHOLD) = 0
    ∧ ∀ s, 1 ≤ s → s ≤ n →
        ((plic_init_contexts n present r).mem (plic_enable_addr c s)).testBit (s % 32) = false := by
  intro present
  induction present with
  | nil => intro r c hc; cases hc
  | cons c0 rest ih =>
    intro r c hc
    have hfold : plic_init_contexts n (c0 :: rest) r
        = plic_init_contexts n rest (plic_init_ctx n c0 r) := rfl
    rw [hfold]
    by_cases hmem : c ∈ rest
    · exact ih _ c hmem
    · have hcc : c = c0 := by
        rcases List.mem_cons.mp hc with h | h
        · exact h
        · exact absurd h hmem
      subst hcc
      refine ⟨?_, ?_⟩
      · exact mem_zero_of_bitsLe (bitsLe_init_contexts n rest _) (init_ctx_threshold n c r)
      · intro s h1 h2
        exact testBit_false_of_bitsLe (bitsLe_init_contexts n rest _)
          (init_ctx_clears n c r s h1 h2)

/-- C4: when `plic_init` returns success, the final register state has,
for every present core's context, threshold 0 and the enable bit of every
hardware source id in [1, sourceCount] cleared. -/
theorem plic_init_clears (env : PlicEnv) (possible present : List Nat) (st : PlicState)
    (h : (plic_init env possible present st).1 = PlicInitResult.ok) :
    ∃ r, (plic_init env possible present st).2.plic_regs = some r
    ∧ ∀ c ∈ present,
        r.mem (plic_hart_offset c + CONTEXT_THRESHOLD) = 0
        ∧ ∀ s, 1 ≤ s → s ≤ env.nr_irqs →
            (r.mem (plic_enable_addr c s)).testBit (s % 32) = false := by
  by_cases h1 : st.plic_regs.isSome
  · simp [plic_init, h1] at h
  · by_cases h2 : env.mapSuccess
    · by_cases h3 : env.nr_irqs = 0
      · simp [plic_init, h1, h2, h3] at h
      · by_cases h4 : env.nr_handlers = 0
        · simp [plic_init, h1, h2, h3, h4] at h
        · by_cases h5 : env.nr_handlers < possible.length
          · simp [plic_init, h1, h2, h3, h4, h5] at h
          · by_cases h6 : env.domainAllocSuccess
            · refine ⟨plic_init_contexts env.nr_irqs present env.initialRegs, ?_, ?_⟩
              · simp [plic_init, h1, h2, h3, h4, h5, h6]
              · intro c hc
                exact init_contexts_props env.nr_irqs present env.initialRegs c hc
            · simp [plic_init, h1, h2, h3, h4, h5, h6] at h
    · simp [plic_init, h1, h2] at h

theorem plic_init_clears_witness :
    ((plic_init ⟨true, ⟨fun _ => 4294967295⟩, 2, 2, true⟩ [0, 1] [0, 1]
      ⟨none, none, false⟩).1 = PlicInitResult.ok)
    ∧ ∃ r, (plic_init ⟨true, ⟨fun _ => 4294967295⟩, 2, 2, true⟩ [0, 1] [0, 1]
      ⟨none, none, false⟩).2.plic_regs = some r
    ∧ ∀ c ∈ [0, 1],
        r.mem (plic_hart_offset c + CONTEXT_THRESHOLD) = 0
        ∧ ∀ s, 1 ≤ s →
            s ≤ (PlicEnv.mk true ⟨fun _ => 4294967295⟩ 2 2 true).nr_irqs →
            (r.mem (plic_enable_addr c s)).testBit (s % 32) = false :=
  ⟨by decide, plic_init_clears ⟨true, ⟨fun _ => 4294967295⟩, 2, 2, true⟩ [0, 1] [0, 1]
    ⟨none, none, false⟩ (by decide)⟩

theorem setup_smp_go_inv (boot : Int) : ∀ (harts : List Int) (cpuid : Nat) (found : Bool)
    (st cfg : SmpMasks),
    setup_smp_go boot harts cpuid found st = some cfg →
    st.possible = st.present ∧ st.possible ≠ [] →
    cfg.possible = cfg.present ∧ cfg.possible ≠ [] := by
  intro harts
  induction harts with
  | nil =>
    intro cpuid found st cfg h hinv
    by_cases hf : found
    · simp [setup_smp_go, hf] at h
      rwa [← h]
    · simp [setup_smp_go, hf] at h
  | cons hart rest ih =>
    intro cpuid found st cfg h hinv
    have hunfold : setup_smp_go boot (hart :: rest) cpuid found st
        = if hart < 0 then setup_smp_go boot rest cpuid found st
          else if hart = boot then
            (if found then none else setup_smp_go boot rest cpuid true st)
          else setup_smp_go boot rest (cpuid + 1) found
            { logical_map := fun i => if i = cpuid then hart.toNat else st.logical_map i,
              possible := st.possible ++ [cpuid],
              present := st.present ++ [cpuid] } := rfl
    rw [hunfold] at h
    by_cases h1 : hart < 0
    · rw [if_pos h1] at h
      exact ih _ _ _ _ h hinv
    · rw [if_neg h1] at h
      by_cases h2 : hart = boot
      · rw [if_pos h2] at h
        cases found
        · simp only [Bool.false_eq_true, if_false] at h
          exact ih _ _ _ _ h hinv
        · simp at h
      · rw [if_neg h2] at h
        exact ih _ _ _ _ h ⟨by simp [hinv.1], by simp⟩

theorem setup_smp_masks (boot : Int) (harts : List Int) (cfg : SmpMasks)
    (h : setup_smp boot harts = some cfg) :
    cfg.possible = cfg.present ∧ cfg.possible ≠ [] :=
  setup_smp_go_inv boot harts 1 false _ cfg h ⟨rfl, by simp⟩

/-- C1: with the cpu masks produced by `setup_smp` (where the possible and
present masks coincide), a call to `plic_init` on an unmapped controller
whose window maps successfully and whose source count is nonzero fails
with the insufficient-contexts error — leaving the register window
unmapped — exactly when the number of hart-facing contexts
(`of_irq_count`) is less than the number of present cores. -/
theorem plic_init_insufficient_contexts_iff (boot : Int) (harts : List Int) (cfg : SmpMasks)
    (env : PlicEnv) (st : PlicState)
    (hsmp : setup_smp boot harts = some cfg)
    (hst : st.plic_regs = none)
    (hmap : env.mapSuccess = true)
    (hsrc : env.nr_irqs ≠ 0) :
    (failsInsufficientContexts (plic_init env cfg.possible cfg.present st).1
      ∧ (plic_init env cfg.possible cfg.present st).2.plic_regs = none)
    ↔ env.nr_handlers < cfg.present.length := by
  obtain ⟨hpp, hne⟩ := setup_smp_masks boot harts cfg hsmp
  have hlen : cfg.possible.length = cfg.present.length := by rw [hpp]
  have hpos : 0 < cfg.present.length := by
    rw [← hlen]
    exact List.length_pos.mpr hne
  by_cases h4 : env.nr_handlers = 0
  · have hres : (plic_init env cfg.possible cfg.present st).1 = PlicInitResult.errNoHandlers := by
      simp [plic_init, hst, hmap, hsrc, h4]
    have hreg : (plic_init env cfg.possible cfg.present st).2.plic_regs = none := by
      simp [plic_init, hst, hmap, hsrc, h4]
    constructor
    · intro _
      omega
    · intro _
      exact ⟨Or.inl hres, hreg⟩
  · by_cases h5 : env.nr_handlers < cfg.possible.length
    · have hres : (plic_init env cfg.possible cfg.present st).1
          = PlicInitResult.errTooFewHandlers := by
        simp [plic_init, hst, hmap, hsrc, h4, h5]
      have hreg : (plic_init env cfg.possible cfg.present st).2.plic_regs = none := by
        simp [plic_init, hst, hmap, hsrc, h4, h5]
      constructor
      · intro _
        rw [← hlen]
        exact h5
      · intro _
        exact ⟨Or.inr hres, hreg⟩
    · have hnlt : ¬ env.nr_handlers < cfg.present.length := by
        rw [← hlen]
        exact h5
      constructor
      · rintro ⟨hfail, -⟩
        exfalso
        by_cases h6 : env.domainAllocSuccess
        · have hres : (plic_init env cfg.possible cfg.present st).1 = PlicInitResult.ok := by
            simp [plic_init, hst, hmap, hsrc, h4, h5, h6]
          simp [failsInsufficientContexts, hres] at hfail
        · have hres : (plic_init env cfg.possible cfg.present st).1
              = PlicInitResult.errDomainAlloc := by
            simp [plic_init, hst, hmap, hsrc, h4, h5, h6]
          simp [failsInsufficientContexts, hres] at hfail
      · intro hc
        exact absurd hc hnlt

theorem plic_init_insufficient_contexts_iff_witness :
    setup_smp 0 [0, 1]
      = some (SmpMasks.mk (fun i => if i = 1 then 1 else if i = 0 then 0 else 0) [0, 1] [0, 1])
    ∧ (PlicState.mk none none false).plic_regs = none
    ∧ (PlicEnv.mk true ⟨fun _ => 0⟩ 3 1 true).mapSuccess = true
    ∧ (PlicEnv.mk true ⟨fun _ => 0⟩ 3 1 true).nr_irqs ≠ 0
    ∧ ((failsInsufficientContexts
          (plic_init (PlicEnv.mk true ⟨fun _ => 0⟩ 3 1 true)
            (SmpMasks.mk (fun i => if i = 1 then 1 else if i = 0 then 0 else 0)
              [0, 1] [0, 1]).possible
            (SmpMasks.mk (fun i => if i = 1 then 1 else if i = 0 then 0 else 0)
              [0, 1] [0, 1]).present
            (PlicState.mk none none false)).1
        ∧ (plic_init (PlicEnv.mk true ⟨fun _ => 0⟩ 3 1 true)
            (SmpMasks.mk (fun i => if i = 1 then 1 else if i = 0 then 0 else 0)
              [0, 1] [0, 1]).possible
            (SmpMasks.mk (fun i => if i = 1 then 1 else if i = 0 then 0 else 0)
              [0, 1] [0, 1]).present
            (PlicState.mk none none false)).2.plic_regs = none)
      ↔ (PlicEnv.mk true ⟨fun _ => 0⟩ 3 1 true).nr_handlers
          < (SmpMasks.mk (fun i => if i = 1 then 1 else if i = 0 then 0 else 0)
              [0, 1] [0, 1]).present.length) :=
  ⟨rfl, rfl, rfl, by decide,
    plic_init_insufficient_contexts_iff 0 [0, 1]
      (SmpMasks.mk (fun i => if i = 1 then 1 else if i = 0 then 0 else 0) [0, 1] [0, 1])
      (PlicEnv.mk true ⟨fun _ => 0⟩ 3 1 true) (PlicState.mk none none false)
      rfl rfl rfl (by decide)⟩

/-- C2 (code bug): `__cpu_up` returns 0 — the same value as on success —
even when the start primitive reports an error: here the boot hook
returns -5 (an EIO-style failure) for hart 11, the failure is merely
logged, and the call still hands 0 back to its caller. -/
theorem cpu_up_boot_error_returns_zero :
    (cpu_up (CpuOperations.mk (some (fun _ _ st => (-5, st))) none false) false 1
        (TaskStruct.mk 4096 0) onlineTestState).map (fun res => res.1) = some 0
    ∧ (cpu_up (CpuOperations.mk (some (fun _ _ st => (-5, st))) none false) false 1
        (TaskStruct.mk 4096 0) onlineTestState).map (fun res => res.2.2)
      = some [BootEvent.bootPrimitive 11, BootEvent.logBootFailure 1 11] := by
  exact ⟨rfl, rfl⟩

/-- C3 (counterexample): `__cpu_up` on the already-online cpu 1 returns
the success value, but the start primitive IS invoked again and the
hart's published boot stack pointer IS overwritten (999 becomes
4096 + THREAD_SIZE = 12288), contradicting the claimed no-op
idempotence. -/
theorem cpu_up_already_online_cex :
    onlineTestState.online 1 = true
    ∧ (cpu_up default_ops false 1 (TaskStruct.mk 4096 0) onlineTestState).map
        (fun res => res.1) = some 0
    ∧ (cpu_up default_ops false 1 (TaskStruct.mk 4096 0) onlineTestState).map
        (fun res => res.2.2.count (BootEvent.bootPrimitive 11)) = some 1
    ∧ onlineTestState.cpu_up_stack_pointer 11 = some 999
    ∧ (cpu_up default_ops false 1 (TaskStruct.mk 4096 0) onlineTestState).map
        (fun res => res.2.1.cpu_up_stack_pointer 11) = some (some 12288)
    ∧ ¬ (999 : Nat) = 12288 := by
  refine ⟨rfl, rfl, rfl, rfl, rfl, by decide⟩

/-- C3 (amended): `__cpu_up` on an already-online hart returns the success
value immediately — the online poll exits at once, even with the
never-comes-online oracle — but it still invokes the start primitive,
which re-publishes the hart's boot stack pointer and boot task handle. -/
theorem cpu_up_already_online (st : SmpState) (cpu : Nat) (tidle : TaskStruct)
    (h : st.online cpu = true) :
    cpu_up default_ops false cpu tidle st
      = some (0,
          { st with
            cpu_up_stack_pointer := fun h2 =>
              if h2 = st.logical_map cpu then some (tidle.stack_page + THREAD_SIZE)
              else st.cpu_up_stack_pointer h2,
            cpu_up_task_pointer := fun h2 =>
              if h2 = st.logical_map cpu then some (TaskStruct.mk tidle.stack_page cpu)
              else st.cpu_up_task_pointer h2 },
          [BootEvent.bootPrimitive (st.logical_map cpu), BootEvent.sendIPI cpu,
           BootEvent.logOnline cpu]) := by
  simp [cpu_up, default_ops, default_cpu_boot, h]

theorem cpu_up_already_online_witness :
    onlineTestState.online 1 = true
    ∧ cpu_up default_ops false 1 (TaskStruct.mk 4096 0) onlineTestState
      = some (0,
          { onlineTestState with
            cpu_up_stack_pointer := fun h2 =>
              if h2 = 11 then some 12288 else onlineTestState.cpu_up_stack_pointer h2,
            cpu_up_task_pointer := fun h2 =>
              if h2 = 11 then some (TaskStruct.mk 4096 1)
              else onlineTestState.cpu_up_task_pointer h2 },
          [BootEvent.bootPrimitive 11, BootEvent.sendIPI 1, BootEvent.logOnline 1]) :=
  ⟨rfl, cpu_up_already_online onlineTestState 1 (TaskStruct.mk 4096 0) rfl⟩

/-- C8 (counterexample): with no disable hook installed at all,
`__cpu_disable` does NOT return -EOPNOTSUPP: ret stays 0, the call
succeeds, the hart is marked offline and irq migration is requested —
contradicting the claim that an absent hook yields OperationNotSupported
with no side effects. -/
theorem cpu_disable_no_hook_cex :
    (cpu_disable_path none 1 onlineTestState).1 = 0
    ∧ ¬ (cpu_disable_path none 1 onlineTestState).1 = -EOPNOTSUPP
    ∧ onlineTestState.online 1 = true
    ∧ (cpu_disable_path none 1 onlineTestState).2.1.online 1 = false
    ∧ (cpu_disable_path none 1 onlineTestState).2.2 = [DisableEvent.migrateIrqs 1] := by
  refine ⟨rfl, by decide, rfl, rfl, rfl⟩

/-- C8 (amended): the OperationNotSupported failure comes from the
installed default disable hook when the per-controller die hook is
absent: then `__cpu_disable` returns -EOPNOTSUPP with no side effects
(state unchanged, no migration).  In general a nonzero hook return is
handed back with no side effects, the hart is marked offline (with irq
migration requested) exactly when the call succeeds, and an absent
disable hook lets the call succeed and take the hart offline. -/
theorem cpu_disable_spec (cpu : Nat) (st : SmpState) (dis : Option (Nat → Int)) :
    cpu_disable_path (some (default_cpu_disable false)) cpu st = (-EOPNOTSUPP, st, [])
    ∧ ((cpu_disable_path dis cpu st).1 ≠ 0 →
        cpu_disable_path dis cpu st = ((cpu_disable_path dis cpu st).1, st, []))
    ∧ ((cpu_disable_path dis cpu st).1 = 0 →
        (cpu_disable_path dis cpu st).2.1.online cpu = false
        ∧ (cpu_disable_path dis cpu st).2.2 = [DisableEvent.migrateIrqs cpu])
    ∧ cpu_disable_path none cpu st
        = (0, { st with online := fun c => if c = cpu then false else st.online c },
           [DisableEvent.migrateIrqs cpu]) := by
  refine ⟨?_, ?_, ?_, ?_⟩
  · have hret : cpu_disable_ret (some (default_cpu_disable false)) cpu = -EOPNOTSUPP := rfl
    simp [cpu_disable_path, hret, EOPNOTSUPP]
  · intro hne
    by_cases hr : cpu_disable_ret dis cpu ≠ 0
    · simp [cpu_disable_path, hr]
    · exfalso
      apply hne
      simp [cpu_disable_path, not_not.mp hr]
  · intro hz
    by_cases hr : cpu_disable_ret dis cpu ≠ 0
    · exfalso
      rw [show cpu_disable_path dis cpu st = (cpu_disable_ret dis cpu, st, []) from by
        simp [cpu_disable_path, hr]] at hz
      exact hr hz
    · have hr0 := not_not.mp hr
      constructor
      · simp [cpu_disable_path, hr0]
      · simp [cpu_disable_path, hr0]
  · simp [cpu_disable_path, cpu_disable_ret]

theorem die_loop_continue_iff (o : CsrObservation) :
    die_loop_continue o = true
      ↔ (o.sip &&& o.sie = 0 ∧ o.scause ≠ INTERRUPT_CAUSE_SOFTWARE) := by
  simp [die_loop_continue, Bool.and_eq_true, beq_iff_eq, bne_iff_ne]

theorem die_loop_continue_false_iff (o : CsrObservation) :
    die_loop_continue o = false
      ↔ (o.sip &&& o.sie ≠ 0 ∨ o.scause = INTERRUPT_CAUSE_SOFTWARE) := by
  rw [← Bool.not_eq_true, die_loop_continue_iff]
  tauto

/-- C7 (counterexample): the park loop also exits when an enabled
interrupt is pending with scause not holding the software restart cause:
observing (sip = 2, sie = 2, scause = 0) ends the loop at index 0
although scause is not INTERRUPT_CAUSE_SOFTWARE — the software cause is
not the loop's only exit condition.  (sie = 2 is the software-interrupt
enable bit, which the cpu_play_dead mask deliberately leaves set.) -/
theorem default_cpu_die_nonsoftware_exit :
    default_cpu_die_run [CsrObservation.mk 2 2 0] = some 0
    ∧ ¬ (CsrObservation.mk 2 2 0).scause = INTERRUPT_CAUSE_SOFTWARE
    ∧ (CsrObservation.mk 2 2 0).sip &&& (CsrObservation.mk 2 2 0).sie ≠ 0
    ∧ cpu_play_dead_sie 2 = 2 := by
  refine ⟨rfl, by decide, by decide, by decide⟩

/-- C7 (amended): once parked, the dying hart leaves the wait loop (and
re-enters secondaryEntry via boot_sec_cpu) exactly at the first
observation showing an enabled pending interrupt (sip AND sie ≠ 0) or the
software restart cause (scause = INTERRUPT_CAUSE_SOFTWARE); while every
observation shows neither, it stays parked. -/
theorem default_cpu_die_exit_iff (obs : List CsrObservation) :
    ((default_cpu_die_run obs).isSome
      ↔ ∃ o ∈ obs, o.sip &&& o.sie ≠ 0 ∨ o.scause = INTERRUPT_CAUSE_SOFTWARE)
    ∧ ∀ i, default_cpu_die_run obs = some i →
        ∃ pre o2 suf, obs = pre ++ o2 :: suf ∧ pre.length = i
          ∧ (o2.sip &&& o2.sie ≠ 0 ∨ o2.scause = INTERRUPT_CAUSE_SOFTWARE)
          ∧ ∀ o3 ∈ pre, o3.sip &&& o3.sie = 0 ∧ o3.scause ≠ INTERRUPT_CAUSE_SOFTWARE := by
  induction obs with
  | nil =>
    constructor
    · simp [default_cpu_die_run]
    · intro i hi
      simp [default_cpu_die_run] at hi
  | cons o rest ih =>
    by_cases hc : die_loop_continue o = true
    · have hcont := (die_loop_continue_iff o).mp hc
      have hrun : default_cpu_die_run (o :: rest)
          = (default_cpu_die_run rest).map Nat.succ := by
        simp [default_cpu_die_run, hc]
      constructor
      · rw [hrun]
        cases hrest : default_cpu_die_run rest with
        | none =>
          simp only [Option.map_none', Option.isSome_none]
          rw [hrest] at ih
          simp only [Option.isSome_none] at ih
          constructor
          · intro hfalse
            exact absurd hfalse (by decide)
          · rintro ⟨o2, ho2, hp⟩
            rcases List.mem_cons.mp ho2 with rfl | h2
            · rcases hp with hp | hp
              · exact absurd hcont.1 hp
              · exact absurd hp hcont.2
            · exact (Bool.false_ne_true (ih.1.mpr ⟨o2, h2, hp⟩)).elim
        | some i0 =>
          simp only [Option.map_some', Option.isSome_some, true_iff]
          rw [hrest] at ih
          have := ih.1.mp rfl
          obtain ⟨o2, ho2, hp⟩ := by
            simpa using this
          exact ⟨o2, List.mem_cons_of_mem _ ho2, hp⟩
      · intro i hi
        rw [hrun] at hi
        cases hrest : default_cpu_die_run rest with
        | none =>
          rw [hrest] at hi
          simp at hi
        | some i0 =>
          rw [hrest] at hi
          simp only [Option.map_some', Option.some.injEq] at hi
          obtain ⟨pre, o2, suf, hsplit, hlen, hprop, hprev⟩ := ih.2 i0 hrest
          refine ⟨o :: pre, o2, suf, by rw [hsplit]; rfl, by simp [hlen, ← hi], hprop, ?_⟩
          intro o3 ho3
          rcases List.mem_cons.mp ho3 with rfl | h3
          · exact hcont
          · exact hprev o3 h3
    · have hexit := (die_loop_continue_false_iff o).mp (Bool.not_eq_true _ ▸ hc)
      have hrun : default_cpu_die_run (o :: rest) = some 0 := by
        simp [default_cpu_die_run, hc]
      constructor
      · rw [hrun]
        simp only [Option.isSome_some, true_iff]
        exact ⟨o, List.mem_cons_self _ _, hexit⟩
      · intro i hi
        rw [hrun] at hi
        have hi0 : i = 0 := (Option.some.injEq _ _ ▸ hi).symm
        refine ⟨[], o, rest, rfl, by simp [hi0], hexit, ?_⟩
        intro o3 ho3
        cases ho3
